import Mathlib

/-!
A verification development for the `envdiff` tool.

The program captures two environment snapshots (mappings from variable
names to string values), diffs them, classifies every key into one of six
categories (added, replaced, removed, list-expanded, assumed-list-expanded,
unhandled) and renders the result as shell or GNU Modules directives.

The definitions below are a shallow embedding of the Python source
`envdiff.py`: the regex list splitter, the list-likeness test, the sublist
search, the classification pipeline of `main`, the two output formatters
and the argument processing.  Mappings are modelled as association lists
of strings; Python sets of keys are modelled as `Finset String`.
-/

namespace Envdiff

/-- One splitting step of the regex `:(?!\/\/)` from envdiff.py line 33:
split on a colon that is not followed by two forward slashes.  `acc` is the
reversed current token. -/
def splitChars : List Char → List Char → List (List Char)
  | [], acc => [acc.reverse]
  | c :: rest, acc =>
      if c = ':' ∧ rest.take 2 ≠ ['/', '/'] then acc.reverse :: splitChars rest []
      else splitChars rest (c :: acc)

/-- `re_list_splitter.split(s)`: Python re.split on `:(?!\/\/)`.  On the
empty string this yields a one-element list containing the empty string,
exactly as Python re.split does. -/
def re_list_splitter_split (s : String) : List String :=
  (splitChars s.toList []).map (fun cs => ⟨cs⟩)

/-- Scan for a colon that is not followed by two forward slashes. -/
def hasSplitColon : List Char → Bool
  | [] => false
  | c :: rest =>
      if c = ':' ∧ rest.take 2 ≠ ['/', '/'] then true
      else hasSplitColon rest

/-- `is_bash_listlike(entry)` from envdiff.py lines 35-37: the regex
`:(?!\/\/)` has a match somewhere in the string. -/
def is_bash_listlike (s : String) : Bool :=
  hasSplitColon s.toList

/-- Scan of every suffix of `a` for one starting with `b`; returns the
offset of the first such suffix.  Helper for `index_of_sublist`. -/
def searchFrom (b : List String) : List String → Option Nat
  | [] => if b = [] then some 0 else none
  | x :: a => if (x :: a).take b.length = b then some 0
      else (searchFrom b a).map (· + 1)

/-- `index_of_sublist(a, b)` from envdiff.py lines 39-46: the first index
at which `b` occurs contiguously inside `a`, or none.  The Python code
first rejects a needle longer than the haystack, then scans windows left
to right. -/
def index_of_sublist (a b : List String) : Option Nat :=
  if b.length > a.length then none else searchFrom b a

/-- `contains_sublist(a, b)` from envdiff.py lines 48-50. -/
def contains_sublist (a b : List String) : Bool :=
  (index_of_sublist a b).isSome

/-! ### Environment snapshots and the per-key classification -/

/-- An environment snapshot: an association list from variable names to
values (a Python dict has unique keys; lookups take the first binding). -/
abbrev Env := List (String × String)

/-- Value of `k` in `e`, as `dict.get` returning an option. -/
def envGet (e : Env) (k : String) : Option String :=
  List.lookup k e

/-- `dict.get(key, "")`: lookup with default empty string. -/
def envGetD (e : Env) (k : String) : String :=
  (envGet e k).getD ""

/-- The key set of a snapshot. -/
def envKeys (e : Env) : Finset String :=
  (e.map Prod.fst).toFinset

/-- Deleting the ignored keys from a snapshot (envdiff.py lines 279-284). -/
def dropKeys (e : Env) (ign : Finset String) : Env :=
  e.filter (fun p => p.1 ∉ ign)

/-- The per-key outcome of classification, carrying the data the
formatters receive: the new value for scalar categories, the token lists
added in front and behind for the list categories, and the raw value plus
diagnostic comment for the unhandled category. -/
inductive ChangeRecord where
  | added (value : String)
  | replaced (value : String)
  | removed
  | listExpanded (front back : List String)
  | assumedListExpanded (front back : List String)
  | unhandled (value : String) (comment : String)
deriving DecidableEq, Repr

/-- Tokenisation of the before-value in the list branch of `main`
(envdiff.py lines 331-337): a missing or empty value is treated as the
empty token list, otherwise the value is split by the regex. -/
def beforeTokens : Option String → List String
  | some v => if v = "" then [] else re_list_splitter_split v
  | none => []

/-- The classification decision for a single key, as a function of its
before-value and after-value (envdiff.py lines 286-356).  Every branch of
`main` is per-key: key sets only move keys between buckets based on that
key's own two values, so the whole pipeline is determined by this
function.  `none` means the key gets no category (absent from both
snapshots, or present in both with equal values). -/
def classifyKey (b a : Option String) : Option ChangeRecord :=
  match b, a with
  | none, none => none
  | some _, none => some .removed
  | none, some va =>
      if is_bash_listlike va then
        some (.assumedListExpanded (re_list_splitter_split va) [])
      else
        some (.added va)
  | some vb, some va =>
      if vb = va then none
      else if ¬ is_bash_listlike vb ∧ ¬ is_bash_listlike va then
        if vb = "" then some (.added va) else some (.replaced va)
      else
        let start := if vb = "" then [] else re_list_splitter_split vb
        let stop := re_list_splitter_split va
        if start = [] then
          some (.assumedListExpanded stop [])
        else
          match index_of_sublist stop start with
          | some i => some (.listExpanded (stop.take i) (stop.drop (i + start.length)))
          | none => some (.unhandled va "")

/-- Whether the warning of envdiff.py lines 311-313 is printed for this
key: only when a changed, non-list-like key had an empty before-value and
the --warn-empty option is set. -/
def warnsEmptyReplace (warnEmpty : Bool) (b a : Option String) : Bool :=
  match b, a with
  | some vb, some va =>
      if vb ≠ va ∧ ¬ is_bash_listlike vb ∧ ¬ is_bash_listlike va ∧ vb = "" then
        warnEmpty
      else false
  | _, _ => false

/-! ### The key-set pipeline of `main` (envdiff.py lines 286-356)

The Python code computes mutable key sets and moves keys between them.
Each loop body depends only on the key being moved, so the mutation
pipeline is translated into the following chain of set definitions over
the two (already ignore-filtered) snapshots `b` and `s`. -/

/-- `added_keys = sourced_keys - start_keys` (line 289). -/
def added_keys0 (b s : Env) : Finset String :=
  envKeys s \ envKeys b

/-- `changed_keys` (line 290): present in both with differing values. -/
def changed_keys0 (b s : Env) : Finset String :=
  (envKeys b ∩ envKeys s).filter (fun k => envGet b k ≠ envGet s k)

/-- Added keys whose value looks like a list (lines 298-302). -/
def moved_keys (b s : Env) : Finset String :=
  (added_keys0 b s).filter (fun k => is_bash_listlike (envGetD s k))

/-- `changed_keys` after absorbing list-like added keys (line 301). -/
def changed_keys1 (b s : Env) : Finset String :=
  changed_keys0 b s ∪ moved_keys b s

/-- `added_keys` after removing list-like added keys (line 302). -/
def added_keys1 (b s : Env) : Finset String :=
  added_keys0 b s \ moved_keys b s

/-- Changed keys where neither side is list-like (line 307). -/
def scalar_keys (b s : Env) : Finset String :=
  (changed_keys1 b s).filter
    (fun k => ¬ (is_bash_listlike (envGetD b k) ∨ is_bash_listlike (envGetD s k)))

/-- `changed_keys` after the scalar filter (line 309). -/
def changed_keys2 (b s : Env) : Finset String :=
  changed_keys1 b s \ scalar_keys b s

/-- Scalar changed keys whose before-value was the empty string
(line 311): these are re-emitted as additions. -/
def empty_before_keys (b s : Env) : Finset String :=
  (scalar_keys b s).filter (fun k => envGet b k = some "")

/-- The final added key set (lines 302 and 314). -/
def added_final (b s : Env) : Finset String :=
  added_keys1 b s ∪ empty_before_keys b s

/-- `replaced_keys` (line 316). -/
def replaced_keys (b s : Env) : Finset String :=
  scalar_keys b s \ empty_before_keys b s

/-- Removed keys, `start_keys - sourced_keys` (line 319). -/
def removed_keys (b s : Env) : Finset String :=
  envKeys b \ envKeys s

/-- Changed keys that enter the assumed-list branch (lines 339-341):
empty before-token list. -/
def assumed_listchange_keys (b s : Env) : Finset String :=
  (changed_keys2 b s).filter (fun k => beforeTokens (envGet b k) = [])

/-- Changed keys whose before-token list is found inside the after-token
list (lines 350-356). -/
def listchange_keys (b s : Env) : Finset String :=
  (changed_keys2 b s).filter (fun k =>
    beforeTokens (envGet b k) ≠ [] ∧
    contains_sublist (re_list_splitter_split (envGetD s k)) (beforeTokens (envGet b k)))

/-- Changed keys whose before-token list is not found inside the
after-token list (lines 344-346): downgraded to unhandled. -/
def unhandled_keys (b s : Env) : Finset String :=
  (changed_keys2 b s).filter (fun k =>
    beforeTokens (envGet b k) ≠ [] ∧
    ¬ contains_sublist (re_list_splitter_split (envGetD s k)) (beforeTokens (envGet b k)))

/-- The six category names. -/
inductive Cat where
  | added
  | replaced
  | removed
  | listexp
  | assumedListexp
  | unhandled
deriving DecidableEq, Repr

/-- The category of a change record. -/
def catOf : ChangeRecord → Cat
  | .added _ => .added
  | .replaced _ => .replaced
  | .removed => .removed
  | .listExpanded _ _ => .listexp
  | .assumedListExpanded _ _ => .assumedListexp
  | .unhandled _ _ => .unhandled

theorem catOf_added (v : String) : catOf (ChangeRecord.added v) = Cat.added := rfl

theorem catOf_replaced (v : String) : catOf (ChangeRecord.replaced v) = Cat.replaced := rfl

theorem catOf_removed : catOf ChangeRecord.removed = Cat.removed := rfl

theorem catOf_listExpanded (p q : List String) :
    catOf (ChangeRecord.listExpanded p q) = Cat.listexp := rfl

theorem catOf_assumedListExpanded (p q : List String) :
    catOf (ChangeRecord.assumedListExpanded p q) = Cat.assumedListexp := rfl

theorem catOf_unhandled (v c : String) : catOf (ChangeRecord.unhandled v c) = Cat.unhandled := rfl

/-- The key set the pipeline assigns to a category. -/
def categorySet (b s : Env) : Cat → Finset String
  | .added => added_final b s
  | .replaced => replaced_keys b s
  | .removed => removed_keys b s
  | .listexp => listchange_keys b s
  | .assumedListexp => assumed_listchange_keys b s
  | .unhandled => unhandled_keys b s

/-- Keys present in both snapshots with equal values: these receive no
category at all (the code never looks at them). -/
def unchanged_keys (b s : Env) : Finset String :=
  (envKeys b ∩ envKeys s).filter (fun k => envGet b k = envGet s k)

/-! ### Facts about the splitter -/

theorem splitChars_length_pos (l acc : List Char) : 0 < (splitChars l acc).length := by
  induction l generalizing acc with
  | nil => simp [splitChars]
  | cons c rest ih =>
      simp only [splitChars]
      split
      · simp
      · exact ih _

theorem splitChars_of_no_colon (l : List Char) (h : hasSplitColon l = false) :
    ∀ acc, splitChars l acc = [acc.reverse ++ l] := by
  induction l with
  | nil => intro acc; simp [splitChars]
  | cons c rest ih =>
      intro acc
      simp only [hasSplitColon] at h
      simp only [splitChars]
      split
      · rename_i hc
        rw [if_pos hc] at h
        exact absurd h (by simp)
      · rename_i hc
        rw [if_neg hc] at h
        rw [ih h]
        simp

theorem splitChars_two_le (l : List Char) (h : hasSplitColon l = true) :
    ∀ acc, 2 ≤ (splitChars l acc).length := by
  induction l with
  | nil => simp [hasSplitColon] at h
  | cons c rest ih =>
      intro acc
      simp only [hasSplitColon] at h
      simp only [splitChars]
      split
      · rename_i hc
        have := splitChars_length_pos rest []
        simp only [List.length_cons]
        omega
      · rename_i hc
        rw [if_neg hc] at h
        exact ih h _

/-- A string with no list-splitting colon splits into just itself. -/
theorem split_of_not_listlike (v : String) (h : is_bash_listlike v = false) :
    re_list_splitter_split v = [v] := by
  unfold re_list_splitter_split
  rw [splitChars_of_no_colon _ h]
  simp

/-- A list-like string splits into at least two tokens. -/
theorem two_le_split_length_of_listlike (v : String) (h : is_bash_listlike v = true) :
    2 ≤ (re_list_splitter_split v).length := by
  unfold re_list_splitter_split
  rw [List.length_map]
  exact splitChars_two_le _ h _

theorem split_ne_nil (v : String) : re_list_splitter_split v ≠ [] := by
  unfold re_list_splitter_split
  have h := splitChars_length_pos v.toList []
  intro hc
  have : (splitChars v.toList []).length = 0 := by
    simpa using congrArg List.length hc
  omega

theorem listlike_empty : is_bash_listlike "" = false := rfl

/-! ### Facts about the sublist search -/

theorem index_of_sublist_none_of_short (a b : List String) (h : a.length < b.length) :
    index_of_sublist a b = none := by
  unfold index_of_sublist
  rw [if_pos h]

theorem searchFrom_take (b : List String) (x : List String) (i : Nat)
    (h : searchFrom b x = some i) :
    (x.drop i).take b.length = b := by
  induction x generalizing i with
  | nil =>
      simp only [searchFrom] at h
      split at h
      · rename_i hb
        cases h
        simp [hb]
      · cases h
  | cons y ys ih =>
      simp only [searchFrom] at h
      split at h
      · rename_i hb
        cases h
        simpa using hb
      · rcases Option.map_eq_some'.mp h with ⟨j, hj, rfl⟩
        simpa using ih j hj

/-- A found index really marks an occurrence of `b` inside `a`. -/
theorem index_of_sublist_spec (a b : List String) (i : Nat)
    (h : index_of_sublist a b = some i) :
    (a.drop i).take b.length = b := by
  unfold index_of_sublist at h
  split at h
  · cases h
  · exact searchFrom_take b a i h

/-! ### Keys and lookups -/

theorem mem_envKeys (e : Env) (k : String) :
    k ∈ envKeys e ↔ (envGet e k).isSome := by
  simp only [envKeys, envGet, List.mem_toFinset, List.mem_map, List.lookup_isSome_iff,
    beq_iff_eq]
  constructor
  · rintro ⟨p, hp, rfl⟩
    exact ⟨p, hp, rfl⟩
  · rintro ⟨p, hp, rfl⟩
    exact ⟨p, hp, rfl⟩

theorem envKeys_dropKeys (e : Env) (ign : Finset String) :
    envKeys (dropKeys e ign) = envKeys e \ ign := by
  ext k
  simp only [envKeys, dropKeys, Finset.mem_sdiff, List.mem_toFinset, List.mem_map,
    List.mem_filter]
  constructor
  · rintro ⟨p, ⟨hp, hk⟩, rfl⟩
    exact ⟨⟨p, hp, rfl⟩, by simpa using hk⟩
  · rintro ⟨⟨p, hp, rfl⟩, hk⟩
    exact ⟨p, ⟨hp, by simpa using hk⟩, rfl⟩

/-! ### Membership characterisations of the pipeline sets -/

theorem mem_added_keys0 (b s : Env) (k : String) :
    k ∈ added_keys0 b s ↔ (envGet s k).isSome ∧ ¬ (envGet b k).isSome := by
  simp [added_keys0, mem_envKeys]

theorem mem_changed_keys0 (b s : Env) (k : String) :
    k ∈ changed_keys0 b s ↔
      (envGet b k).isSome ∧ (envGet s k).isSome ∧ envGet b k ≠ envGet s k := by
  simp [changed_keys0, mem_envKeys, and_assoc]

theorem mem_moved_keys (b s : Env) (k : String) :
    k ∈ moved_keys b s ↔
      ((envGet s k).isSome ∧ ¬ (envGet b k).isSome) ∧
        is_bash_listlike (envGetD s k) := by
  simp [moved_keys, mem_added_keys0]

theorem mem_changed_keys1 (b s : Env) (k : String) :
    k ∈ changed_keys1 b s ↔ k ∈ changed_keys0 b s ∨ k ∈ moved_keys b s := by
  simp [changed_keys1]

theorem mem_scalar_keys (b s : Env) (k : String) :
    k ∈ scalar_keys b s ↔
      k ∈ changed_keys1 b s ∧
        ¬ (is_bash_listlike (envGetD b k) ∨ is_bash_listlike (envGetD s k)) := by
  simp [scalar_keys]

theorem mem_changed_keys2 (b s : Env) (k : String) :
    k ∈ changed_keys2 b s ↔ k ∈ changed_keys1 b s ∧ k ∉ scalar_keys b s := by
  simp [changed_keys2]

theorem mem_empty_before_keys (b s : Env) (k : String) :
    k ∈ empty_before_keys b s ↔ k ∈ scalar_keys b s ∧ envGet b k = some "" := by
  simp [empty_before_keys]

theorem mem_added_final (b s : Env) (k : String) :
    k ∈ added_final b s ↔
      (k ∈ added_keys0 b s ∧ k ∉ moved_keys b s) ∨ k ∈ empty_before_keys b s := by
  simp [added_final, added_keys1]

theorem mem_replaced_keys (b s : Env) (k : String) :
    k ∈ replaced_keys b s ↔ k ∈ scalar_keys b s ∧ ¬ envGet b k = some "" := by
  simp [replaced_keys, mem_empty_before_keys]
  tauto

theorem mem_removed_keys (b s : Env) (k : String) :
    k ∈ removed_keys b s ↔ (envGet b k).isSome ∧ ¬ (envGet s k).isSome := by
  simp [removed_keys, mem_envKeys]

theorem mem_assumed_listchange_keys (b s : Env) (k : String) :
    k ∈ assumed_listchange_keys b s ↔
      k ∈ changed_keys2 b s ∧ beforeTokens (envGet b k) = [] := by
  simp [assumed_listchange_keys]

theorem mem_listchange_keys (b s : Env) (k : String) :
    k ∈ listchange_keys b s ↔
      k ∈ changed_keys2 b s ∧ beforeTokens (envGet b k) ≠ [] ∧
        contains_sublist (re_list_splitter_split (envGetD s k)) (beforeTokens (envGet b k)) := by
  simp [listchange_keys]

theorem mem_unhandled_keys (b s : Env) (k : String) :
    k ∈ unhandled_keys b s ↔
      k ∈ changed_keys2 b s ∧ beforeTokens (envGet b k) ≠ [] ∧
        ¬ contains_sublist (re_list_splitter_split (envGetD s k)) (beforeTokens (envGet b k)) := by
  simp [unhandled_keys]

/-! ### The bridge: pipeline membership agrees with the per-key classifier -/

/-- The key-set pipeline of `main` assigns key `k` to category `c` exactly
when the per-key decision tree `classifyKey`, applied to the two values of
`k`, produces a record of that category. -/
theorem mem_categorySet_iff (b s : Env) (k : String) (c : Cat) :
    k ∈ categorySet b s c ↔
      (classifyKey (envGet b k) (envGet s k)).map catOf = some c := by
  rcases hgb : envGet b k with _ | vb <;> rcases hgs : envGet s k with _ | vs
  · cases c <;>
      simp [categorySet, mem_added_final, mem_replaced_keys, mem_removed_keys,
        mem_listchange_keys, mem_assumed_listchange_keys, mem_unhandled_keys,
        mem_changed_keys2, mem_changed_keys1, mem_changed_keys0, mem_moved_keys,
        mem_scalar_keys, mem_empty_before_keys, mem_added_keys0, hgb, hgs, classifyKey, and_assoc, exists_and_left, exists_eq_left, exists_eq_left']
  · by_cases hls : is_bash_listlike vs
    · cases c <;>
        simp [categorySet, mem_added_final, mem_replaced_keys, mem_removed_keys,
          mem_listchange_keys, mem_assumed_listchange_keys, mem_unhandled_keys,
          mem_changed_keys2, mem_changed_keys1, mem_changed_keys0, mem_moved_keys,
          mem_scalar_keys, mem_empty_before_keys, mem_added_keys0, hgb, hgs,
          envGetD, classifyKey, catOf_added, catOf_replaced, catOf_removed, catOf_listExpanded, catOf_assumedListExpanded, catOf_unhandled, beforeTokens, hls, listlike_empty, and_assoc, exists_and_left, exists_eq_left, exists_eq_left']
    · cases c <;>
        simp [categorySet, mem_added_final, mem_replaced_keys, mem_removed_keys,
          mem_listchange_keys, mem_assumed_listchange_keys, mem_unhandled_keys,
          mem_changed_keys2, mem_changed_keys1, mem_changed_keys0, mem_moved_keys,
          mem_scalar_keys, mem_empty_before_keys, mem_added_keys0, hgb, hgs,
          envGetD, classifyKey, catOf_added, catOf_replaced, catOf_removed, catOf_listExpanded, catOf_assumedListExpanded, catOf_unhandled, beforeTokens, hls, listlike_empty, and_assoc, exists_and_left, exists_eq_left, exists_eq_left']
  · cases c <;>
      simp [categorySet, mem_added_final, mem_replaced_keys, mem_removed_keys,
        mem_listchange_keys, mem_assumed_listchange_keys, mem_unhandled_keys,
        mem_changed_keys2, mem_changed_keys1, mem_changed_keys0, mem_moved_keys,
        mem_scalar_keys, mem_empty_before_keys, mem_added_keys0, hgb, hgs,
        classifyKey, catOf_added, catOf_replaced, catOf_removed, catOf_listExpanded, catOf_assumedListExpanded, catOf_unhandled, and_assoc, exists_and_left, exists_eq_left, exists_eq_left']
  · by_cases heq : vb = vs
    · cases c <;>
        simp [categorySet, mem_added_final, mem_replaced_keys, mem_removed_keys,
          mem_listchange_keys, mem_assumed_listchange_keys, mem_unhandled_keys,
          mem_changed_keys2, mem_changed_keys1, mem_changed_keys0, mem_moved_keys,
          mem_scalar_keys, mem_empty_before_keys, mem_added_keys0, hgb, hgs,
          classifyKey, heq, and_assoc, exists_and_left, exists_eq_left, exists_eq_left']
    · by_cases hsc : ¬ is_bash_listlike vb ∧ ¬ is_bash_listlike vs
      · by_cases hemp : vb = ""
        · cases c <;>
            simp [categorySet, mem_added_final, mem_replaced_keys, mem_removed_keys,
              mem_listchange_keys, mem_assumed_listchange_keys, mem_unhandled_keys,
              mem_changed_keys2, mem_changed_keys1, mem_changed_keys0, mem_moved_keys,
              mem_scalar_keys, mem_empty_before_keys, mem_added_keys0, hgb, hgs,
              envGetD, classifyKey, catOf_added, catOf_replaced, catOf_removed, catOf_listExpanded, catOf_assumedListExpanded, catOf_unhandled, heq, hsc.1, hsc.2, hemp, listlike_empty, and_assoc, exists_and_left, exists_eq_left, exists_eq_left']
        · cases c <;>
            simp [categorySet, mem_added_final, mem_replaced_keys, mem_removed_keys,
              mem_listchange_keys, mem_assumed_listchange_keys, mem_unhandled_keys,
              mem_changed_keys2, mem_changed_keys1, mem_changed_keys0, mem_moved_keys,
              mem_scalar_keys, mem_empty_before_keys, mem_added_keys0, hgb, hgs,
              envGetD, classifyKey, catOf_added, catOf_replaced, catOf_removed, catOf_listExpanded, catOf_assumedListExpanded, catOf_unhandled, heq, hsc.1, hsc.2, hemp, listlike_empty, and_assoc, exists_and_left, exists_eq_left, exists_eq_left']
      · have hsc' : is_bash_listlike vb = true ∨ is_bash_listlike vs = true := by
          rcases Decidable.not_and_iff_or_not.mp hsc with h | h
          · exact Or.inl (by simpa using h)
          · exact Or.inr (by simpa using h)
        by_cases hemp : vb = ""
        · have hbt : beforeTokens (some vb) = [] := by
            simp [beforeTokens, hemp]
          have hlvs : is_bash_listlike vs = true := by
            rcases hsc' with h | h
            · rw [hemp] at h
              exact absurd h (by simp [listlike_empty])
            · exact h
          cases c <;>
            simp [categorySet, mem_added_final, mem_replaced_keys, mem_removed_keys,
              mem_listchange_keys, mem_assumed_listchange_keys, mem_unhandled_keys,
              mem_changed_keys2, mem_changed_keys1, mem_changed_keys0, mem_moved_keys,
              mem_scalar_keys, mem_empty_before_keys, mem_added_keys0, hgb, hgs,
              envGetD, classifyKey, catOf_added, catOf_replaced, catOf_removed, catOf_listExpanded, catOf_assumedListExpanded, catOf_unhandled, heq, hemp, hbt, hlvs,
              listlike_empty, beforeTokens, and_assoc, exists_and_left, exists_eq_left,
              exists_eq_left']
        · have hbt : beforeTokens (some vb) = re_list_splitter_split vb := by
            simp [beforeTokens, hemp]
          have hbtne : re_list_splitter_split vb ≠ [] := split_ne_nil vb
          have hscF : ¬ (is_bash_listlike vb = false ∧ is_bash_listlike vs = false) := by
            rcases hsc' with h | h <;> simp [h]
          rcases hfind : index_of_sublist (re_list_splitter_split vs) (re_list_splitter_split vb)
            with _ | i
          · cases c <;>
              simp [categorySet, mem_added_final, mem_replaced_keys, mem_removed_keys,
                mem_listchange_keys, mem_assumed_listchange_keys, mem_unhandled_keys,
                mem_changed_keys2, mem_changed_keys1, mem_changed_keys0, mem_moved_keys,
                mem_scalar_keys, mem_empty_before_keys, mem_added_keys0, hgb, hgs,
                envGetD, classifyKey, catOf_added, catOf_replaced, catOf_removed, catOf_listExpanded, catOf_assumedListExpanded, catOf_unhandled, contains_sublist, heq, hemp,
                hbt, hbtne, hfind, hscF, and_assoc, exists_and_left, exists_eq_left,
                exists_eq_left']
          · cases c <;>
              simp [categorySet, mem_added_final, mem_replaced_keys, mem_removed_keys,
                mem_listchange_keys, mem_assumed_listchange_keys, mem_unhandled_keys,
                mem_changed_keys2, mem_changed_keys1, mem_changed_keys0, mem_moved_keys,
                mem_scalar_keys, mem_empty_before_keys, mem_added_keys0, hgb, hgs,
                envGetD, classifyKey, catOf_added, catOf_replaced, catOf_removed, catOf_listExpanded, catOf_assumedListExpanded, catOf_unhandled, contains_sublist, heq, hemp,
                hbt, hbtne, hfind, hscF, and_assoc, exists_and_left, exists_eq_left,
                exists_eq_left']

/-- A changed key always receives a record: classification is total. -/
theorem classifyKey_isSome_of_ne (vb va : String) (h : vb ≠ va) :
    (classifyKey (some vb) (some va)).isSome := by
  simp only [classifyKey, if_neg h]
  repeat' split
  all_goals rfl

/-- A key receives no category exactly when its two values agree (this
includes absence from both snapshots). -/
theorem classifyKey_eq_none_iff (b a : Option String) :
    classifyKey b a = none ↔ b = a := by
  rcases b with _ | vb <;> rcases a with _ | va
  · simp [classifyKey]
  · simp only [classifyKey]
    split <;> simp
  · simp [classifyKey]
  · by_cases h : vb = va
    · simp [classifyKey, h]
    · constructor
      · intro hnone
        have hs := classifyKey_isSome_of_ne vb va h
        rw [hnone] at hs
        exact absurd hs (by simp)
      · intro hcontra
        exact absurd (Option.some.inj hcontra) h

theorem disjoint_categorySet (b s : Env) (c c' : Cat) (h : c ≠ c') :
    Disjoint (categorySet b s c) (categorySet b s c') := by
  rw [Finset.disjoint_left]
  intro k hk hk'
  have h1 := (mem_categorySet_iff b s k c).mp hk
  have h2 := (mem_categorySet_iff b s k c').mp hk'
  rw [h1] at h2
  exact h (Option.some.inj h2)

theorem mem_sixUnion (b s : Env) (k : String) :
    k ∈ (added_final b s ∪ replaced_keys b s ∪ removed_keys b s ∪ listchange_keys b s ∪
        assumed_listchange_keys b s ∪ unhandled_keys b s) ↔
      classifyKey (envGet b k) (envGet s k) ≠ none := by
  constructor
  · intro h
    simp only [Finset.mem_union] at h
    rcases h with ((((h | h) | h) | h) | h) | h <;>
      [have := (mem_categorySet_iff b s k Cat.added).mp h;
       have := (mem_categorySet_iff b s k Cat.replaced).mp h;
       have := (mem_categorySet_iff b s k Cat.removed).mp h;
       have := (mem_categorySet_iff b s k Cat.listexp).mp h;
       have := (mem_categorySet_iff b s k Cat.assumedListexp).mp h;
       have := (mem_categorySet_iff b s k Cat.unhandled).mp h] <;>
      (intro hn; rw [hn] at this; simp at this)
  · intro h
    obtain ⟨r, hr⟩ := Option.ne_none_iff_exists'.mp h
    have hm := (mem_categorySet_iff b s k (catOf r)).mpr (by rw [hr]; rfl)
    cases r <;>
      simp only [catOf, categorySet] at hm <;>
      simp [Finset.mem_union, hm]

/-- The six categories cover exactly the keys whose two values differ. -/
theorem sixUnion_eq (b s : Env) :
    (added_final b s ∪ replaced_keys b s ∪ removed_keys b s ∪ listchange_keys b s ∪
        assumed_listchange_keys b s ∪ unhandled_keys b s)
      = (envKeys b ∪ envKeys s) \ unchanged_keys b s := by
  ext k
  rw [mem_sixUnion]
  rcases hgb : envGet b k with _ | vb <;> rcases hgs : envGet s k with _ | vs <;>
    simp [classifyKey_eq_none_iff, unchanged_keys, mem_envKeys, hgb, hgs]

/-- The default ignore set of envdiff.py line 279. -/
def IGNORE : Finset String :=
  {"SHLVL", "_", "OLDPWD"}

/-! ### Claim C1 -/

/-- C1, counterexample.  The claim states that every key in the union of
the two snapshots' keys minus the ignore set is assigned to exactly one
category.  With two identical one-entry snapshots and an empty ignore set,
the key HOME lies in that union but belongs to none of the six categories:
unchanged keys are dropped. -/
theorem C1_counterexample :
    "HOME" ∈ ((envKeys [("HOME", "/root")] ∪ envKeys [("HOME", "/root")]) \
        (∅ : Finset String)) ∧
      "HOME" ∉ added_final [("HOME", "/root")] [("HOME", "/root")] ∧
      "HOME" ∉ replaced_keys [("HOME", "/root")] [("HOME", "/root")] ∧
      "HOME" ∉ removed_keys [("HOME", "/root")] [("HOME", "/root")] ∧
      "HOME" ∉ listchange_keys [("HOME", "/root")] [("HOME", "/root")] ∧
      "HOME" ∉ assumed_listchange_keys [("HOME", "/root")] [("HOME", "/root")] ∧
      "HOME" ∉ unhandled_keys [("HOME", "/root")] [("HOME", "/root")] := by
  decide

/-- C1 (amended): for every pair of before/after snapshots and every
ignore set, the six categories produced by the classification pipeline are
pairwise disjoint, and their union is the union of the two snapshots'
keys, minus the ignore set, minus the unchanged keys (present in both
snapshots with equal values); every other key is assigned to exactly one
category and none is dropped. -/
theorem C1_partition_amended (before sourced : Env) (ign : Finset String) :
    [added_final (dropKeys before ign) (dropKeys sourced ign),
        replaced_keys (dropKeys before ign) (dropKeys sourced ign),
        removed_keys (dropKeys before ign) (dropKeys sourced ign),
        listchange_keys (dropKeys before ign) (dropKeys sourced ign),
        assumed_listchange_keys (dropKeys before ign) (dropKeys sourced ign),
        unhandled_keys (dropKeys before ign) (dropKeys sourced ign)].Pairwise Disjoint ∧
      (added_final (dropKeys before ign) (dropKeys sourced ign) ∪
          replaced_keys (dropKeys before ign) (dropKeys sourced ign) ∪
          removed_keys (dropKeys before ign) (dropKeys sourced ign) ∪
          listchange_keys (dropKeys before ign) (dropKeys sourced ign) ∪
          assumed_listchange_keys (dropKeys before ign) (dropKeys sourced ign) ∪
          unhandled_keys (dropKeys before ign) (dropKeys sourced ign))
        = ((envKeys before ∪ envKeys sourced) \ ign) \
            unchanged_keys (dropKeys before ign) (dropKeys sourced ign) := by
  constructor
  · have hp : List.Pairwise (fun c c' : Cat => c ≠ c')
        [Cat.added, Cat.replaced, Cat.removed, Cat.listexp, Cat.assumedListexp,
          Cat.unhandled] := by decide
    exact hp.map (categorySet (dropKeys before ign) (dropKeys sourced ign))
      (fun c c' hne => disjoint_categorySet _ _ c c' hne)
  · rw [sixUnion_eq, envKeys_dropKeys, envKeys_dropKeys, ← Finset.union_sdiff_distrib]

/-! ### Claim C6 -/

/-- C6, counterexample.  The raw regex splitter applied to the empty
string yields a one-element sequence containing the empty string, exactly
as Python re.split does — not the empty sequence the claim states. -/
theorem C6_counterexample :
    re_list_splitter_split "" = [""] ∧ re_list_splitter_split "" ≠ [] := by
  decide

/-- C6 (amended): the raw splitter yields a one-element sequence holding
the empty string on empty input; the classifier special-cases an
empty/absent before-value (envdiff.py lines 331-337), tokenising it to the
empty sequence, so an empty/absent value is treated as no prior list. -/
theorem C6_amended :
    beforeTokens (some "") = [] ∧ beforeTokens none = [] ∧
      re_list_splitter_split "" = [""] := by
  exact ⟨by decide, rfl, by decide⟩

/-! ### Claim C8 -/

/-- C8: classifying a snapshot against an identical snapshot (after the
ignore filter is applied to both, as `main` does) yields zero entries in
every one of the six categories. -/
theorem C8_identical_empty (e : Env) (ign : Finset String) :
    added_final (dropKeys e ign) (dropKeys e ign) = ∅ ∧
      replaced_keys (dropKeys e ign) (dropKeys e ign) = ∅ ∧
      removed_keys (dropKeys e ign) (dropKeys e ign) = ∅ ∧
      listchange_keys (dropKeys e ign) (dropKeys e ign) = ∅ ∧
      assumed_listchange_keys (dropKeys e ign) (dropKeys e ign) = ∅ ∧
      unhandled_keys (dropKeys e ign) (dropKeys e ign) = ∅ := by
  have key : ∀ c k, k ∉ categorySet (dropKeys e ign) (dropKeys e ign) c := by
    intro c k h
    have hm := (mem_categorySet_iff _ _ k c).mp h
    have hn : classifyKey (envGet (dropKeys e ign) k) (envGet (dropKeys e ign) k) = none :=
      (classifyKey_eq_none_iff _ _).mpr rfl
    rw [hn] at hm
    exact Option.noConfusion hm
  refine ⟨?_, ?_, ?_, ?_, ?_, ?_⟩ <;>
    [exact Finset.eq_empty_of_forall_not_mem (key Cat.added);
     exact Finset.eq_empty_of_forall_not_mem (key Cat.replaced);
     exact Finset.eq_empty_of_forall_not_mem (key Cat.removed);
     exact Finset.eq_empty_of_forall_not_mem (key Cat.listexp);
     exact Finset.eq_empty_of_forall_not_mem (key Cat.assumedListexp);
     exact Finset.eq_empty_of_forall_not_mem (key Cat.unhandled)]

/-! ### Shared helper: the not-found list branch -/

/-- In the list branch (both values present and differing, at least one
side list-like, non-empty before-value), a before-token sequence that is
not found inside the after-token sequence sends the key to the unhandled
category, with the raw after-value and an empty comment (the call at
envdiff.py line 346 passes no comment argument). -/
theorem unhandled_of_not_found (b s : Env) (k vb va : String)
    (hgb : envGet b k = some vb) (hgs : envGet s k = some va)
    (hne : vb ≠ va) (hvb : vb ≠ "")
    (hll : is_bash_listlike vb = true ∨ is_bash_listlike va = true)
    (hfind : index_of_sublist (re_list_splitter_split va) (re_list_splitter_split vb)
      = none) :
    k ∈ unhandled_keys b s ∧
      classifyKey (envGet b k) (envGet s k) = some (ChangeRecord.unhandled va "") := by
  have hcond : ¬ (¬ is_bash_listlike vb ∧ ¬ is_bash_listlike va) := by
    rcases hll with h | h <;> simp [h]
  have hck : classifyKey (envGet b k) (envGet s k)
      = some (ChangeRecord.unhandled va "") := by
    rw [hgb, hgs]
    simp only [classifyKey, if_neg hne, if_neg hcond, if_neg hvb]
    rw [if_neg (split_ne_nil vb), hfind]
  exact ⟨(mem_categorySet_iff b s k Cat.unhandled).mpr (by rw [hck]; rfl), hck⟩

/-! ### Claim C2 -/

/-- C2, counterexample to the round-trip clause.  With before-value `a`
(the old, unexpanded list) and after-value `a:a` — which is prefix `[a]`,
the old list and empty suffix joined by the delimiter — classification
returns the first-occurrence split, prefix `[]` and suffix `[a]`, not the
original prefix `[a]` and suffix `[]`. -/
theorem C2_counterexample :
    classifyKey (some "a") (some "a:a")
        = some (ChangeRecord.listExpanded [] ["a"]) ∧
      classifyKey (some "a") (some "a:a")
        ≠ some (ChangeRecord.listExpanded ["a"] []) := by
  decide

/-- C2 (amended): for every changed key whose before-value tokenises to a
non-empty sequence found at first index `i` of the after-token sequence,
classification yields list-expanded with prefix the after-tokens before
`i` and suffix the after-tokens from `i` plus the before-token length
onward; consequently the round-trip recovers a decomposition
`p ++ before-tokens ++ s` of the after-tokens exactly when the
first-occurrence index equals the length of `p`. -/
theorem C2_listexpand_amended (vb va : String) (i : Nat)
    (hne : vb ≠ va) (hvb : vb ≠ "")
    (hfind : index_of_sublist (re_list_splitter_split va) (re_list_splitter_split vb)
      = some i) :
    classifyKey (some vb) (some va)
        = some (ChangeRecord.listExpanded ((re_list_splitter_split va).take i)
            ((re_list_splitter_split va).drop (i + (re_list_splitter_split vb).length))) ∧
      ∀ p s : List String,
        re_list_splitter_split va = p ++ re_list_splitter_split vb ++ s →
        i = p.length →
        (re_list_splitter_split va).take i = p ∧
          (re_list_splitter_split va).drop (i + (re_list_splitter_split vb).length) = s := by
  constructor
  · by_cases hsc : ¬ is_bash_listlike vb ∧ ¬ is_bash_listlike va
    · exfalso
      have hb1 : re_list_splitter_split vb = [vb] :=
        split_of_not_listlike vb (by simpa using hsc.1)
      have ha1 : re_list_splitter_split va = [va] :=
        split_of_not_listlike va (by simpa using hsc.2)
      have hspec := index_of_sublist_spec _ _ _ hfind
      rw [hb1, ha1] at hspec
      rcases i with _ | j
      · simp at hspec
        exact hne (hspec.symm)
      · rw [List.drop_succ_cons, List.drop_nil] at hspec
        simp at hspec
    · have hck : classifyKey (some vb) (some va)
          = some (ChangeRecord.listExpanded ((re_list_splitter_split va).take i)
              ((re_list_splitter_split va).drop (i + (re_list_splitter_split vb).length))) := by
        simp only [classifyKey, if_neg hne, if_neg hsc, if_neg hvb]
        rw [if_neg (split_ne_nil vb), hfind]
      exact hck
  · intro p s hdec hi
    subst hi
    constructor
    · rw [hdec, List.append_assoc]
      exact List.take_left p _
    · have hlen : p.length + (re_list_splitter_split vb).length
          = (p ++ re_list_splitter_split vb).length := (List.length_append _ _).symm
      rw [hdec, hlen]
      exact List.drop_left _ _

/-- C2, witness: the spec scenario, before `/usr/bin:/bin` and after
`/opt/x/bin:/usr/bin:/bin`, found at first index 1. -/
theorem C2_witness :
    "/usr/bin:/bin" ≠ "/opt/x/bin:/usr/bin:/bin" ∧
      "/usr/bin:/bin" ≠ "" ∧
      index_of_sublist (re_list_splitter_split "/opt/x/bin:/usr/bin:/bin")
          (re_list_splitter_split "/usr/bin:/bin") = some 1 ∧
      classifyKey (some "/usr/bin:/bin") (some "/opt/x/bin:/usr/bin:/bin")
        = some (ChangeRecord.listExpanded ["/opt/x/bin"] []) :=
  ⟨by decide, by decide, by decide,
    ((C2_listexpand_amended "/usr/bin:/bin" "/opt/x/bin:/usr/bin:/bin" 1
      (by decide) (by decide) (by decide)).1).trans (by decide)⟩

/-! ### Claim C3 -/

/-- C3: a key present in both snapshots with differing values, neither of
which is list-like, is classified as added when the before-value is the
empty string — with the diagnostic warning emitted exactly when the
--warn-empty option is set — and as replaced otherwise (with no
warning). -/
theorem C3_scalar_change (b s : Env) (k vb va : String) (w : Bool)
    (hgb : envGet b k = some vb) (hgs : envGet s k = some va)
    (hne : vb ≠ va)
    (hlb : is_bash_listlike vb = false) (hla : is_bash_listlike va = false) :
    (vb = "" →
      k ∈ added_final b s ∧
        classifyKey (envGet b k) (envGet s k) = some (ChangeRecord.added va) ∧
        warnsEmptyReplace w (envGet b k) (envGet s k) = w) ∧
    (vb ≠ "" →
      k ∈ replaced_keys b s ∧
        classifyKey (envGet b k) (envGet s k) = some (ChangeRecord.replaced va) ∧
        warnsEmptyReplace w (envGet b k) (envGet s k) = false) := by
  constructor
  · intro hemp
    subst hemp
    have hck : classifyKey (envGet b k) (envGet s k) = some (ChangeRecord.added va) := by
      rw [hgb, hgs]
      simp [classifyKey, hne, hla, listlike_empty]
    refine ⟨(mem_categorySet_iff b s k Cat.added).mpr (by rw [hck]; rfl), hck, ?_⟩
    rw [hgb, hgs]
    simp [warnsEmptyReplace, hne, hla, listlike_empty]
  · intro hemp
    have hck : classifyKey (envGet b k) (envGet s k) = some (ChangeRecord.replaced va) := by
      rw [hgb, hgs]
      simp [classifyKey, hne, hlb, hla, hemp]
    refine ⟨(mem_categorySet_iff b s k Cat.replaced).mpr (by rw [hck]; rfl), hck, ?_⟩
    rw [hgb, hgs]
    simp [warnsEmptyReplace, hne, hlb, hla, hemp]

/-- C3, witness: the spec scenario COLOR, red to blue, replaced with no
warning even though --warn-empty is set. -/
theorem C3_witness :
    envGet [("COLOR", "red")] "COLOR" = some "red" ∧
      envGet [("COLOR", "blue")] "COLOR" = some "blue" ∧
      "red" ≠ "blue" ∧
      is_bash_listlike "red" = false ∧ is_bash_listlike "blue" = false ∧
      ("COLOR" ∈ replaced_keys [("COLOR", "red")] [("COLOR", "blue")] ∧
        classifyKey (envGet [("COLOR", "red")] "COLOR")
            (envGet [("COLOR", "blue")] "COLOR")
          = some (ChangeRecord.replaced "blue") ∧
        warnsEmptyReplace true (envGet [("COLOR", "red")] "COLOR")
            (envGet [("COLOR", "blue")] "COLOR") = false) :=
  ⟨by decide, by decide, by decide, by decide, by decide,
    (C3_scalar_change [("COLOR", "red")] [("COLOR", "blue")] "COLOR" "red" "blue" true
      (by decide) (by decide) (by decide) (by decide) (by decide)).2 (by decide)⟩

/-! ### Claim C4 -/

/-- C4: a key present only in the after snapshot whose value is list-like
is moved out of the added category and treated as a list change, ending in
the assumed-list-expanded category with prefix all after-tokens and empty
suffix. -/
theorem C4_added_listlike (b s : Env) (k va : String)
    (hgb : envGet b k = none) (hgs : envGet s k = some va)
    (hla : is_bash_listlike va = true) :
    k ∉ added_final b s ∧
      k ∈ assumed_listchange_keys b s ∧
      classifyKey (envGet b k) (envGet s k)
        = some (ChangeRecord.assumedListExpanded (re_list_splitter_split va) []) := by
  have hck : classifyKey (envGet b k) (envGet s k)
      = some (ChangeRecord.assumedListExpanded (re_list_splitter_split va) []) := by
    rw [hgb, hgs]
    simp [classifyKey, hla]
  refine ⟨?_, (mem_categorySet_iff b s k Cat.assumedListexp).mpr (by rw [hck]; rfl), hck⟩
  intro hmem
  have hm := (mem_categorySet_iff b s k Cat.added).mp hmem
  rw [hck] at hm
  exact Cat.noConfusion (Option.some.inj hm)

/-- C4, witness: the spec scenario FOOPATH created as `/a/bin:/b/bin`. -/
theorem C4_witness :
    envGet [] "FOOPATH" = none ∧
      envGet [("FOOPATH", "/a/bin:/b/bin")] "FOOPATH" = some "/a/bin:/b/bin" ∧
      is_bash_listlike "/a/bin:/b/bin" = true ∧
      ("FOOPATH" ∉ added_final [] [("FOOPATH", "/a/bin:/b/bin")] ∧
        "FOOPATH" ∈ assumed_listchange_keys [] [("FOOPATH", "/a/bin:/b/bin")] ∧
        classifyKey (envGet [] "FOOPATH")
            (envGet [("FOOPATH", "/a/bin:/b/bin")] "FOOPATH")
          = some (ChangeRecord.assumedListExpanded ["/a/bin", "/b/bin"] [])) :=
  ⟨rfl, by decide, by decide,
    by
      have h := C4_added_listlike [] [("FOOPATH", "/a/bin:/b/bin")] "FOOPATH"
        "/a/bin:/b/bin" rfl (by decide) (by decide)
      refine ⟨h.1, h.2.1, h.2.2.trans (by decide)⟩⟩

/-! ### Claim C5 -/

/-- C5, counterexample to the comment clause.  For the changed key with
before `a:b` and after `b:a` (tokens reordered, so the before-token list
is not a contiguous sublist of the after-token list) the record carries an
empty comment: `main` calls the formatter's unhandled hook with no comment
argument, so no text notes the complex list modification. -/
theorem C5_counterexample :
    classifyKey (some "a:b") (some "b:a") = some (ChangeRecord.unhandled "b:a" "") ∧
      ¬ ∃ c, classifyKey (some "a:b") (some "b:a")
          = some (ChangeRecord.unhandled "b:a" c) ∧ c ≠ "" := by
  have h0 : classifyKey (some "a:b") (some "b:a")
      = some (ChangeRecord.unhandled "b:a" "") := by decide
  refine ⟨h0, ?_⟩
  rintro ⟨c, hc, hcne⟩
  rw [h0] at hc
  obtain ⟨-, hcc⟩ := ChangeRecord.unhandled.inj (Option.some.inj hc)
  exact hcne hcc.symm

/-- C5 (amended): a changed key in the list branch (at least one side
list-like) whose non-empty before-token sequence does not occur as a
contiguous sublist of the after-token sequence is downgraded to the
unhandled category, carrying the raw after-value and an empty comment
(the generic warning is conveyed by the section header, not a per-key
comment); classification yields a record rather than raising, and by the
partition property every other key is still classified. -/
theorem C5_unhandled_amended (b s : Env) (k vb va : String)
    (hgb : envGet b k = some vb) (hgs : envGet s k = some va)
    (hne : vb ≠ va) (hvb : vb ≠ "")
    (hll : is_bash_listlike vb = true ∨ is_bash_listlike va = true)
    (hfind : index_of_sublist (re_list_splitter_split va) (re_list_splitter_split vb)
      = none) :
    k ∈ unhandled_keys b s ∧
      classifyKey (envGet b k) (envGet s k) = some (ChangeRecord.unhandled va "") :=
  unhandled_of_not_found b s k vb va hgb hgs hne hvb hll hfind

/-- C5, witness: before `a:b`, after `b:c:d`. -/
theorem C5_witness :
    envGet [("P", "a:b")] "P" = some "a:b" ∧
      envGet [("P", "b:c:d")] "P" = some "b:c:d" ∧
      "a:b" ≠ "b:c:d" ∧ "a:b" ≠ "" ∧
      is_bash_listlike "a:b" = true ∧
      index_of_sublist (re_list_splitter_split "b:c:d") (re_list_splitter_split "a:b")
        = none ∧
      ("P" ∈ unhandled_keys [("P", "a:b")] [("P", "b:c:d")] ∧
        classifyKey (envGet [("P", "a:b")] "P") (envGet [("P", "b:c:d")] "P")
          = some (ChangeRecord.unhandled "b:c:d" "")) :=
  ⟨by decide, by decide, by decide, by decide, by decide, by decide,
    C5_unhandled_amended [("P", "a:b")] [("P", "b:c:d")] "P" "a:b" "b:c:d"
      (by decide) (by decide) (by decide) (by decide) (Or.inl (by decide)) (by decide)⟩

/-! ### Claim C10 -/

/-- C10: a key present in both snapshots whose before-value is list-like
and whose after-value is not list-like and differs is always classified
unhandled, never replaced: the key survives the scalar filter because one
side is list-like, and the single-token after sequence can never contain
the at-least-two-token before sequence as a contiguous sublist. -/
theorem C10_list_to_scalar (b s : Env) (k vb va : String)
    (hgb : envGet b k = some vb) (hgs : envGet s k = some va)
    (hne : vb ≠ va)
    (hlb : is_bash_listlike vb = true) (hla : is_bash_listlike va = false) :
    k ∈ unhandled_keys b s ∧
      k ∉ replaced_keys b s ∧
      classifyKey (envGet b k) (envGet s k) = some (ChangeRecord.unhandled va "") := by
  have h2 : 2 ≤ (re_list_splitter_split vb).length := two_le_split_length_of_listlike vb hlb
  have h1 : re_list_splitter_split va = [va] := split_of_not_listlike va hla
  have hvb : vb ≠ "" := by
    intro h
    rw [h] at hlb
    rw [listlike_empty] at hlb
    exact Bool.noConfusion hlb
  have hfind : index_of_sublist (re_list_splitter_split va) (re_list_splitter_split vb)
      = none := by
    apply index_of_sublist_none_of_short
    rw [h1]
    simp only [List.length_singleton]
    omega
  obtain ⟨hu, hck⟩ := unhandled_of_not_found b s k vb va hgb hgs hne hvb (Or.inl hlb) hfind
  refine ⟨hu, ?_, hck⟩
  intro hmem
  have hm := (mem_categorySet_iff b s k Cat.replaced).mp hmem
  rw [hck] at hm
  exact Cat.noConfusion (Option.some.inj hm)

/-- C10, witness: before `a:b` (list-like), after `x` (scalar). -/
theorem C10_witness :
    envGet [("P", "a:b")] "P" = some "a:b" ∧
      envGet [("P", "x")] "P" = some "x" ∧
      "a:b" ≠ "x" ∧
      is_bash_listlike "a:b" = true ∧ is_bash_listlike "x" = false ∧
      ("P" ∈ unhandled_keys [("P", "a:b")] [("P", "x")] ∧
        "P" ∉ replaced_keys [("P", "a:b")] [("P", "x")] ∧
        classifyKey (envGet [("P", "a:b")] "P") (envGet [("P", "x")] "P")
          = some (ChangeRecord.unhandled "x" "")) :=
  ⟨by decide, by decide, by decide, by decide, by decide,
    C10_list_to_scalar [("P", "a:b")] [("P", "x")] "P" "a:b" "x"
      (by decide) (by decide) (by decide) (by decide) (by decide)⟩

/-! ### Claim C7: argument processing -/

/-- Python list.remove: delete the first occurrence of `x`. -/
def removeFirst (x : String) : List String → List String
  | [] => []
  | y :: ys => if y = x then ys else y :: removeFirst x ys

/-- The observable outcome of process_argv: a sys.exit with a code (after
printing the usage text or an error), or the parsed option set. -/
inductive ArgvResult where
  | exited (code : Nat)
  | parsed (bash modules warnEmpty : Bool) (script : String) (args : List String)
deriving DecidableEq, Repr

/-- `process_argv` from envdiff.py lines 221-253, as a function of the
full argv (element 0 is the program name).  Note the -h test of line 245
looks at the full argv while --help is sought in the filtered copy, and
line 248 exits with `1 if len(filtered_argv) == 1 else 0`. -/
def process_argv (argv : List String) : ArgvResult :=
  let f0 := argv.drop 1
  if "--bash" ∈ f0 ∧ "--modules" ∈ f0 then .exited 1
  else
    let f1 := if "--bash" ∈ f0 then removeFirst "--bash" f0 else f0
    let modules := "--modules" ∈ f1
    let f2 := if "--modules" ∈ f1 then removeFirst "--modules" f1 else f1
    let warnEmpty := "--warn-empty" ∈ f2
    let f3 := if "--warn-empty" ∈ f2 then removeFirst "--warn-empty" f2 else f2
    if "-h" ∈ argv ∨ "--help" ∈ f3 ∨ f3 = [] then
      .exited (if f3.length = 1 then 1 else 0)
    else
      .parsed (!modules) modules warnEmpty (f3.headD "") (f3.drop 1)

/-- C7: the exit codes are swapped relative to the claim and to the
code's own comment at envdiff.py line 247 ("Exit with 0 if help
requested, otherwise an error"): an explicit -h or --help request exits
with code 1, and a missing script argument exits with code 0. -/
theorem C7_exit_codes_swapped :
    process_argv ["envdiff.py", "-h"] = ArgvResult.exited 1 ∧
      process_argv ["envdiff.py", "--help"] = ArgvResult.exited 1 ∧
      process_argv ["envdiff.py"] = ArgvResult.exited 0 := by
  decide

/-! ### Claim C9: output formatters and rendering

The two dump methods (BashFormatter.dump, envdiff.py lines 125-152, and
GNUModulesFormatter.dump, lines 192-219) have identical bodies over the
accumulated `OutputCategories`; a single `dump_lines` models both. -/

/-- `OutputCategories` (envdiff.py lines 53-61): the per-category line
lists a formatter accumulates. -/
structure OutputCategories where
  added : List String
  replaced : List String
  removed : List String
  listchange : List String
  assumed_listchange : List String
  unhandled : List String
deriving DecidableEq, Repr

/-- The fresh output of `OutputCategories.__init__`. -/
def emptyOutput : OutputCategories :=
  ⟨[], [], [], [], [], []⟩

/-- BashFormatter.unhandled (lines 111-116): the base line, plus a comment
tail only when the comment is non-empty. -/
def bashUnhandledLine (k v c : String) : String :=
  ("export " ++ k ++ "=" ++ v) ++ (if c = "" then "" else " # " ++ c)

/-- BashFormatter.expand_list (lines 121-123): one combined assignment
referencing the variable symbolically. -/
def bashExpandLine (k : String) (pre suf : List String) : String :=
  "export " ++ k ++ "=" ++ String.intercalate ":" (pre ++ ["$" ++ k] ++ suf)

/-- One BashFormatter method call (envdiff.py lines 100-123), appending a
line to the record's category. -/
def bashApply (o : OutputCategories) (k : String) : ChangeRecord → OutputCategories
  | .added v => { o with added := o.added ++ ["export " ++ k ++ "=" ++ v] }
  | .replaced v => { o with replaced := o.replaced ++ ["export " ++ k ++ "=" ++ v] }
  | .removed => { o with removed := o.removed ++ ["unset " ++ k] }
  | .listExpanded p q => { o with listchange := o.listchange ++ [bashExpandLine k p q] }
  | .assumedListExpanded p q =>
      { o with assumed_listchange := o.assumed_listchange ++ [bashExpandLine k p q] }
  | .unhandled v c => { o with unhandled := o.unhandled ++ [bashUnhandledLine k v c] }

/-- The bash output accumulated over a categorised change set. -/
def buildBash (changes : List (String × ChangeRecord)) : OutputCategories :=
  changes.foldl (fun o kr => bashApply o kr.1 kr.2) emptyOutput

/-- GNUModulesFormatter.unhandled (lines 167-173). -/
def gnuUnhandledLine (k v c : String) : String :=
  ("setenv " ++ k ++ " " ++ v) ++ (if c = "" then "" else " # " ++ c)

/-- The single-empty-token suppression of GNUModulesFormatter.expand_list
(lines 181-185).  `String.trim` models Python str.strip for the ASCII
whitespace arising here. -/
def gnuStrip : List String → List String
  | [x] => if x.trim = "" then [] else [x]
  | l => l

/-- GNUModulesFormatter.expand_list (lines 178-190): zero, one or two
directive lines (note the double space after append-path in the source). -/
def gnuExpandLines (k : String) (pre suf : List String) : List String :=
  (if gnuStrip pre ≠ [] then
      ["prepend-path " ++ k ++ " " ++ String.intercalate ":" (gnuStrip pre)] else []) ++
  (if gnuStrip suf ≠ [] then
      ["append-path  " ++ k ++ " " ++ String.intercalate ":" (gnuStrip suf)] else [])

/-- One GNUModulesFormatter method call (envdiff.py lines 154-190). -/
def gnuApply (o : OutputCategories) (k : String) : ChangeRecord → OutputCategories
  | .added v => { o with added := o.added ++ ["setenv " ++ k ++ " " ++ v] }
  | .replaced v => { o with replaced := o.replaced ++ ["setenv " ++ k ++ " " ++ v] }
  | .removed => { o with removed := o.removed ++ ["unsetenv " ++ k] }
  | .listExpanded p q => { o with listchange := o.listchange ++ gnuExpandLines k p q }
  | .assumedListExpanded p q =>
      { o with assumed_listchange := o.assumed_listchange ++ gnuExpandLines k p q }
  | .unhandled v c => { o with unhandled := o.unhandled ++ [gnuUnhandledLine k v c] }

/-- The GNU Modules output accumulated over a categorised change set. -/
def buildGnu (changes : List (String × ChangeRecord)) : OutputCategories :=
  changes.foldl (fun o kr => gnuApply o kr.1 kr.2) emptyOutput

/-- Python sorted(): lexicographic ascending sort of the lines. -/
def sortLines (l : List String) : List String :=
  l.insertionSort (fun x y => x ≤ y)

/-- The dump method shared by both formatters: for each non-empty
category, in the fixed order, a fixed header line, the sorted and
newline-joined directive lines, and a trailing empty line; unhandled lines
get a trailing hash after sorting (line 150). -/
def dump_lines (o : OutputCategories) : List String :=
  (if o.added ≠ [] then
      ["# Variables added", String.intercalate "\n" (sortLines o.added), ""] else []) ++
  (if o.replaced ≠ [] then
      ["# Variables replaced - these had a value before that changed",
        String.intercalate "\n" (sortLines o.replaced), ""] else []) ++
  (if o.removed ≠ [] then
      ["# Variables deleted/unset", String.intercalate "\n" (sortLines o.removed), ""]
    else []) ++
  (if o.listchange ≠ [] then
      ["# Lists prefixed/appended to", String.intercalate "\n" (sortLines o.listchange), ""]
    else []) ++
  (if o.assumed_listchange ≠ [] then
      ["# Variables created - but looked like a list; assuming prefix operation",
        String.intercalate "\n" (sortLines o.assumed_listchange), ""] else []) ++
  (if o.unhandled ≠ [] then
      ["# WARNING: The following were unhandled/unknown/too complex",
        String.intercalate "\n" ((sortLines o.unhandled).map (fun x => x ++ "#")), ""]
    else [])

/-- The rendered document: the line groups joined by newlines. -/
def dump (o : OutputCategories) : String :=
  String.intercalate "\n" (dump_lines o)

/-- A section of the rendered document, per the structure the claim
describes: absent when there are no lines, otherwise the header, the
newline-joined lines, and a blank separator. -/
def secBlock (header : String) (ls : List String) : List String :=
  if ls = [] then [] else [header, String.intercalate "\n" ls, ""]

theorem sortLines_eq_nil_iff (l : List String) : sortLines l = [] ↔ l = [] := by
  have hp : (sortLines l).Perm l := List.perm_insertionSort (fun x y : String => x ≤ y) l
  constructor
  · intro h
    rw [h] at hp
    exact hp.symm.eq_nil
  · intro h
    rw [h]
    rfl

theorem sorted_sortLines (l : List String) :
    List.Sorted (fun x y : String => x ≤ y) (sortLines l) :=
  List.sorted_insertionSort _ l

theorem chunk_eq (h : String) (cat ls : List String) (hiff : ls = [] ↔ cat = []) :
    (if cat ≠ [] then [h, String.intercalate "\n" ls, ""] else []) = secBlock h ls := by
  by_cases hc : cat = []
  · simp [secBlock, hc, hiff.mpr hc]
  · have hls : ls ≠ [] := fun h0 => hc (hiff.mp h0)
    simp [secBlock, hc, hls]

/-- The rendered line groups are exactly the six section blocks, in the
fixed order, with the fixed headers, each present only when its category
is non-empty, with sorted lines (annotated after sorting for the
unhandled section), and a blank separator closing each section. -/
theorem dump_lines_eq_blocks (o : OutputCategories) :
    dump_lines o =
      secBlock "# Variables added" (sortLines o.added) ++
        secBlock "# Variables replaced - these had a value before that changed"
          (sortLines o.replaced) ++
        secBlock "# Variables deleted/unset" (sortLines o.removed) ++
        secBlock "# Lists prefixed/appended to" (sortLines o.listchange) ++
        secBlock "# Variables created - but looked like a list; assuming prefix operation"
          (sortLines o.assumed_listchange) ++
        secBlock "# WARNING: The following were unhandled/unknown/too complex"
          ((sortLines o.unhandled).map (fun x => x ++ "#")) := by
  have hmap : (sortLines o.unhandled).map (fun x => x ++ "#") = [] ↔ o.unhandled = [] := by
    rw [List.map_eq_nil_iff]
    exact sortLines_eq_nil_iff _
  unfold dump_lines
  rw [chunk_eq _ o.added _ (sortLines_eq_nil_iff _),
    chunk_eq _ o.replaced _ (sortLines_eq_nil_iff _),
    chunk_eq _ o.removed _ (sortLines_eq_nil_iff _),
    chunk_eq _ o.listchange _ (sortLines_eq_nil_iff _),
    chunk_eq _ o.assumed_listchange _ (sortLines_eq_nil_iff _),
    chunk_eq _ o.unhandled _ hmap]

/-! ### Order machinery for the annotated unhandled section -/

/-- `p` is an initial segment of `l`. -/
def IsFront (p l : List Char) : Prop :=
  ∃ t, p ++ t = l

theorem isFront_cancel (p a b : List Char) (h : IsFront (p ++ a) (p ++ b)) :
    IsFront a b := by
  obtain ⟨t, ht⟩ := h
  rw [List.append_assoc] at ht
  exact ⟨t, List.append_cancel_left ht⟩

/-- Two key-separator-value character lists where one starts the other
have equal keys, provided neither key holds the separator. -/
theorem key_eq_of_front (sep : Char) (k1 : List Char) :
    ∀ k2 v1 v2 : List Char, sep ∉ k1 → sep ∉ k2 →
      IsFront (k1 ++ sep :: v1) (k2 ++ sep :: v2) → k1 = k2 := by
  induction k1 with
  | nil =>
      intro k2 v1 v2 h1 h2 h
      cases k2 with
      | nil => rfl
      | cons d k2' =>
          obtain ⟨t, ht⟩ := h
          rw [List.nil_append, List.cons_append, List.cons_append] at ht
          have hd : sep = d := (List.cons.inj ht).1
          exact absurd (hd ▸ List.mem_cons_self d k2') h2
  | cons c k1' ih =>
      intro k2 v1 v2 h1 h2 h
      cases k2 with
      | nil =>
          obtain ⟨t, ht⟩ := h
          rw [List.nil_append, List.cons_append, List.cons_append] at ht
          have hd : c = sep := (List.cons.inj ht).1
          exact absurd (hd ▸ List.mem_cons_self c k1') h1
      | cons d k2' =>
          obtain ⟨t, ht⟩ := h
          rw [List.cons_append, List.cons_append, List.cons_append] at ht
          obtain ⟨hcd, hrest⟩ := List.cons.inj ht
          have h1' : sep ∉ k1' := fun hm => h1 (List.mem_cons_of_mem c hm)
          have h2' : sep ∉ k2' := fun hm => h2 (List.mem_cons_of_mem d hm)
          have : IsFront (k1' ++ sep :: v1) (k2' ++ sep :: v2) := ⟨t, hrest⟩
          rw [hcd, ih k2' v1 v2 h1' h2' this]

theorem lex_append_of_not_front {r : Char → Char → Prop} :
    ∀ {xs ys : List Char}, List.Lex r xs ys → ¬ IsFront xs ys →
      ∀ zs ws : List Char, List.Lex r (xs ++ zs) (ys ++ ws) := by
  intro xs ys h
  induction h with
  | nil =>
      intro hnf
      exact absurd ⟨_, rfl⟩ hnf
  | @rel a as b bs hr =>
      intro _ zs ws
      exact List.Lex.rel hr
  | @cons a as bs h ih =>
      intro hnf zs ws
      apply List.Lex.cons
      apply ih _ zs ws
      rintro ⟨t, ht⟩
      exact hnf ⟨t, by rw [List.cons_append, ht]⟩

theorem toList_append_hash (x : String) : (x ++ "#").toList = x.toList ++ ['#'] := by
  rcases x with ⟨d⟩
  rfl

theorem append_hash_lt (x y : String) (hxy : x < y)
    (hnf : ¬ IsFront x.toList y.toList) : x ++ "#" < y ++ "#" := by
  rw [String.lt_iff_toList_lt] at hxy ⊢
  rw [toList_append_hash, toList_append_hash]
  exact lex_append_of_not_front hxy hnf _ _

theorem append_hash_le (x y : String) (hxy : x ≤ y)
    (h : x = y ∨ ¬ IsFront x.toList y.toList) : x ++ "#" ≤ y ++ "#" := by
  rcases lt_or_eq_of_le hxy with hlt | heq
  · rcases h with rfl | hnf
    · exact le_refl _
    · exact (append_hash_lt x y hlt hnf).le
  · rw [heq]

/-- Appending the hash annotation after sorting keeps the lines sorted,
provided no line is a proper initial segment of a different line. -/
theorem sorted_hash_map (lines : List String)
    (hpf : ∀ x ∈ lines, ∀ y ∈ lines, x ≠ y → ¬ IsFront x.toList y.toList) :
    List.Sorted (fun x y : String => x ≤ y)
      ((sortLines lines).map (fun x => x ++ "#")) := by
  have hs : List.Sorted (fun x y : String => x ≤ y) (sortLines lines) :=
    sorted_sortLines lines
  rw [List.Sorted, List.pairwise_map]
  apply List.Pairwise.imp_of_mem ?_ hs
  intro a b ha hb hab
  apply append_hash_le a b hab
  by_cases hEq : a = b
  · exact Or.inl hEq
  · exact Or.inr (hpf a ((List.mem_insertionSort (fun x y : String => x ≤ y)).mp ha) b
      ((List.mem_insertionSort (fun x y : String => x ≤ y)).mp hb) hEq)

/-- The comment carried by an unhandled record (empty for the others). -/
def unhandledComment : ChangeRecord → String
  | .unhandled _ c => c
  | _ => ""

/-- The bash line an entry contributes to the unhandled category, when
its record is unhandled. -/
def bashUnhandledOf : String × ChangeRecord → Option String
  | (k, .unhandled v c) => some (bashUnhandledLine k v c)
  | _ => none

/-- The GNU Modules line an entry contributes to the unhandled
category, when its record is unhandled. -/
def gnuUnhandledOf : String × ChangeRecord → Option String
  | (k, .unhandled v c) => some (gnuUnhandledLine k v c)
  | _ => none

theorem bashUnhandledOf_added (k v : String) :
    bashUnhandledOf (k, ChangeRecord.added v) = none := rfl

theorem bashUnhandledOf_replaced (k v : String) :
    bashUnhandledOf (k, ChangeRecord.replaced v) = none := rfl

theorem bashUnhandledOf_removed (k : String) :
    bashUnhandledOf (k, ChangeRecord.removed) = none := rfl

theorem bashUnhandledOf_listExpanded (k : String) (p q : List String) :
    bashUnhandledOf (k, ChangeRecord.listExpanded p q) = none := rfl

theorem bashUnhandledOf_assumed (k : String) (p q : List String) :
    bashUnhandledOf (k, ChangeRecord.assumedListExpanded p q) = none := rfl

theorem bashUnhandledOf_unhandled (k v c : String) :
    bashUnhandledOf (k, ChangeRecord.unhandled v c) = some (bashUnhandledLine k v c) := rfl

theorem gnuUnhandledOf_added (k v : String) :
    gnuUnhandledOf (k, ChangeRecord.added v) = none := rfl

theorem gnuUnhandledOf_replaced (k v : String) :
    gnuUnhandledOf (k, ChangeRecord.replaced v) = none := rfl

theorem gnuUnhandledOf_removed (k : String) :
    gnuUnhandledOf (k, ChangeRecord.removed) = none := rfl

theorem gnuUnhandledOf_listExpanded (k : String) (p q : List String) :
    gnuUnhandledOf (k, ChangeRecord.listExpanded p q) = none := rfl

theorem gnuUnhandledOf_assumed (k : String) (p q : List String) :
    gnuUnhandledOf (k, ChangeRecord.assumedListExpanded p q) = none := rfl

theorem gnuUnhandledOf_unhandled (k v c : String) :
    gnuUnhandledOf (k, ChangeRecord.unhandled v c) = some (gnuUnhandledLine k v c) := rfl

theorem buildBash_unhandled_aux (l : List (String × ChangeRecord)) :
    ∀ o : OutputCategories,
      (l.foldl (fun o kr => bashApply o kr.1 kr.2) o).unhandled
        = o.unhandled ++ l.filterMap bashUnhandledOf := by
  induction l with
  | nil => intro o; simp
  | cons kr l ih =>
      intro o
      rw [List.foldl_cons, ih]
      rcases kr with ⟨k, r⟩
      cases r <;> simp [bashApply, bashUnhandledOf]

theorem buildBash_unhandled (changes : List (String × ChangeRecord)) :
    (buildBash changes).unhandled = changes.filterMap bashUnhandledOf := by
  have h := buildBash_unhandled_aux changes emptyOutput
  simpa [buildBash, emptyOutput] using h

theorem buildGnu_unhandled_aux (l : List (String × ChangeRecord)) :
    ∀ o : OutputCategories,
      (l.foldl (fun o kr => gnuApply o kr.1 kr.2) o).unhandled
        = o.unhandled ++ l.filterMap gnuUnhandledOf := by
  induction l with
  | nil => intro o; simp
  | cons kr l ih =>
      intro o
      rw [List.foldl_cons, ih]
      rcases kr with ⟨k, r⟩
      cases r <;> simp [gnuApply, gnuUnhandledOf]

theorem buildGnu_unhandled (changes : List (String × ChangeRecord)) :
    (buildGnu changes).unhandled = changes.filterMap gnuUnhandledOf := by
  have h := buildGnu_unhandled_aux changes emptyOutput
  simpa [buildGnu, emptyOutput] using h

/-- With unique keys, a key determines its record. -/
theorem nodup_key_unique {l : List (String × ChangeRecord)}
    (h : (l.map Prod.fst).Nodup) {k : String} {r1 r2 : ChangeRecord}
    (h1 : (k, r1) ∈ l) (h2 : (k, r2) ∈ l) : r1 = r2 := by
  induction l with
  | nil => cases h1
  | cons p l ih =>
      rw [List.map_cons, List.nodup_cons] at h
      rcases List.mem_cons.mp h1 with he1 | hm1 <;> rcases List.mem_cons.mp h2 with he2 | hm2
      · exact congrArg Prod.snd (he1.trans he2.symm)
      · exfalso
        apply h.1
        rw [← he1]
        exact List.mem_map.mpr ⟨(k, r2), hm2, rfl⟩
      · exfalso
        apply h.1
        rw [← he2]
        exact List.mem_map.mpr ⟨(k, r1), hm1, rfl⟩
      · exact ih h.2 hm1 hm2

theorem toList_append (a b : String) : (a ++ b).toList = a.toList ++ b.toList := by
  rcases a with ⟨d⟩
  rcases b with ⟨e⟩
  rfl

theorem append_empty_str (s : String) : s ++ "" = s := by
  rcases s with ⟨d⟩
  show String.mk (d ++ []) = String.mk d
  rw [List.append_nil]

theorem bash_base_toList (k v : String) :
    ("export " ++ k ++ "=" ++ v).toList
      = "export ".toList ++ (k.toList ++ '=' :: v.toList) := by
  rw [toList_append, toList_append, toList_append]
  rw [List.append_assoc, List.append_assoc]
  rfl

theorem gnu_base_toList (k v : String) :
    ("setenv " ++ k ++ " " ++ v).toList
      = "setenv ".toList ++ (k.toList ++ ' ' :: v.toList) := by
  rw [toList_append, toList_append, toList_append]
  rw [List.append_assoc, List.append_assoc]
  rfl

/-- No bash unhandled line built from the change set is a proper front of
a different one, given unique keys free of the equals sign and empty
comments. -/
theorem bash_front_free (changes : List (String × ChangeRecord))
    (hnd : (changes.map Prod.fst).Nodup)
    (hkeq : ∀ k ∈ changes.map Prod.fst, '=' ∉ k.toList)
    (hcm : ∀ kr ∈ changes, unhandledComment kr.2 = "") :
    ∀ x ∈ (buildBash changes).unhandled, ∀ y ∈ (buildBash changes).unhandled,
      x ≠ y → ¬ IsFront x.toList y.toList := by
  intro x hx y hy hxy hfront
  rw [buildBash_unhandled] at hx hy
  obtain ⟨⟨k1, r1⟩, hm1, he1⟩ := List.mem_filterMap.mp hx
  obtain ⟨⟨k2, r2⟩, hm2, he2⟩ := List.mem_filterMap.mp hy
  rcases r1 with v | v | _ | ⟨p, q⟩ | ⟨p, q⟩ | ⟨v1, c1⟩ <;>
    simp only [bashUnhandledOf_added, bashUnhandledOf_replaced, bashUnhandledOf_removed,
      bashUnhandledOf_listExpanded, bashUnhandledOf_assumed, bashUnhandledOf_unhandled,
      Option.some.injEq, reduceCtorEq] at he1
  rcases r2 with v | v | _ | ⟨p, q⟩ | ⟨p, q⟩ | ⟨v2, c2⟩ <;>
    simp only [bashUnhandledOf_added, bashUnhandledOf_replaced, bashUnhandledOf_removed,
      bashUnhandledOf_listExpanded, bashUnhandledOf_assumed, bashUnhandledOf_unhandled,
      Option.some.injEq, reduceCtorEq] at he2
  have hc1 : c1 = "" := by simpa [unhandledComment] using hcm _ hm1
  have hc2 : c2 = "" := by simpa [unhandledComment] using hcm _ hm2
  subst hc1
  subst hc2
  rw [← he1, ← he2] at hfront
  rw [bashUnhandledLine, if_pos rfl, append_empty_str] at hfront
  rw [bashUnhandledLine, if_pos rfl, append_empty_str] at hfront
  rw [bash_base_toList, bash_base_toList] at hfront
  have hk12 : k1 = k2 := by
    have h1 : '=' ∉ k1.toList := hkeq k1 (List.mem_map.mpr ⟨(k1, _), hm1, rfl⟩)
    have h2 : '=' ∉ k2.toList := hkeq k2 (List.mem_map.mpr ⟨(k2, _), hm2, rfl⟩)
    have := key_eq_of_front '=' k1.toList k2.toList v1.toList v2.toList h1 h2
      (isFront_cancel _ _ _ hfront)
    exact String.toList_inj.mp this
  subst hk12
  have : ChangeRecord.unhandled v1 "" = ChangeRecord.unhandled v2 "" :=
    nodup_key_unique hnd hm1 hm2
  obtain ⟨hv, -⟩ := ChangeRecord.unhandled.inj this
  apply hxy
  rw [← he1, ← he2, hv]

/-- No GNU Modules unhandled line built from the change set is a proper
front of a different one, given unique keys free of spaces and empty
comments. -/
theorem gnu_front_free (changes : List (String × ChangeRecord))
    (hnd : (changes.map Prod.fst).Nodup)
    (hksp : ∀ k ∈ changes.map Prod.fst, ' ' ∉ k.toList)
    (hcm : ∀ kr ∈ changes, unhandledComment kr.2 = "") :
    ∀ x ∈ (buildGnu changes).unhandled, ∀ y ∈ (buildGnu changes).unhandled,
      x ≠ y → ¬ IsFront x.toList y.toList := by
  intro x hx y hy hxy hfront
  rw [buildGnu_unhandled] at hx hy
  obtain ⟨⟨k1, r1⟩, hm1, he1⟩ := List.mem_filterMap.mp hx
  obtain ⟨⟨k2, r2⟩, hm2, he2⟩ := List.mem_filterMap.mp hy
  rcases r1 with v | v | _ | ⟨p, q⟩ | ⟨p, q⟩ | ⟨v1, c1⟩ <;>
    simp only [gnuUnhandledOf_added, gnuUnhandledOf_replaced, gnuUnhandledOf_removed,
      gnuUnhandledOf_listExpanded, gnuUnhandledOf_assumed, gnuUnhandledOf_unhandled,
      Option.some.injEq, reduceCtorEq] at he1
  rcases r2 with v | v | _ | ⟨p, q⟩ | ⟨p, q⟩ | ⟨v2, c2⟩ <;>
    simp only [gnuUnhandledOf_added, gnuUnhandledOf_replaced, gnuUnhandledOf_removed,
      gnuUnhandledOf_listExpanded, gnuUnhandledOf_assumed, gnuUnhandledOf_unhandled,
      Option.some.injEq, reduceCtorEq] at he2
  have hc1 : c1 = "" := by simpa [unhandledComment] using hcm _ hm1
  have hc2 : c2 = "" := by simpa [unhandledComment] using hcm _ hm2
  subst hc1
  subst hc2
  rw [← he1, ← he2] at hfront
  rw [gnuUnhandledLine, if_pos rfl, append_empty_str] at hfront
  rw [gnuUnhandledLine, if_pos rfl, append_empty_str] at hfront
  rw [gnu_base_toList, gnu_base_toList] at hfront
  have hk12 : k1 = k2 := by
    have h1 : ' ' ∉ k1.toList := hksp k1 (List.mem_map.mpr ⟨(k1, _), hm1, rfl⟩)
    have h2 : ' ' ∉ k2.toList := hksp k2 (List.mem_map.mpr ⟨(k2, _), hm2, rfl⟩)
    have := key_eq_of_front ' ' k1.toList k2.toList v1.toList v2.toList h1 h2
      (isFront_cancel _ _ _ hfront)
    exact String.toList_inj.mp this
  subst hk12
  have : ChangeRecord.unhandled v1 "" = ChangeRecord.unhandled v2 "" :=
    nodup_key_unique hnd hm1 hm2
  obtain ⟨hv, -⟩ := ChangeRecord.unhandled.inj this
  apply hxy
  rw [← he1, ← he2, hv]

/-- What claim C9 asserts of a rendered output: the line groups are the
six section blocks in fixed order with fixed headers, present only for
non-empty categories and closed by blank separators, and every section's
emitted lines are sorted lexicographically (the unhandled lines carrying
their trailing hash annotation). -/
def RenderedDoc (o : OutputCategories) : Prop :=
  dump_lines o =
      secBlock "# Variables added" (sortLines o.added) ++
        secBlock "# Variables replaced - these had a value before that changed"
          (sortLines o.replaced) ++
        secBlock "# Variables deleted/unset" (sortLines o.removed) ++
        secBlock "# Lists prefixed/appended to" (sortLines o.listchange) ++
        secBlock "# Variables created - but looked like a list; assuming prefix operation"
          (sortLines o.assumed_listchange) ++
        secBlock "# WARNING: The following were unhandled/unknown/too complex"
          ((sortLines o.unhandled).map (fun x => x ++ "#")) ∧
    List.Sorted (fun x y : String => x ≤ y) (sortLines o.added) ∧
    List.Sorted (fun x y : String => x ≤ y) (sortLines o.replaced) ∧
    List.Sorted (fun x y : String => x ≤ y) (sortLines o.removed) ∧
    List.Sorted (fun x y : String => x ≤ y) (sortLines o.listchange) ∧
    List.Sorted (fun x y : String => x ≤ y) (sortLines o.assumed_listchange) ∧
    List.Sorted (fun x y : String => x ≤ y)
      ((sortLines o.unhandled).map (fun x => x ++ "#"))

/-- C9: for every categorised change set with unique keys that contain
neither the equals sign nor a space (true of environment variable names)
and whose unhandled records carry the empty comment (as classification
produces), the documents rendered by both the bash formatter and the GNU
Modules formatter consist of one section per non-empty category only, in
the fixed order added, replaced, removed, list-expanded,
assumed-list-expanded, unhandled, each with its fixed header and blank
separator, and with each section's directive lines sorted
lexicographically. -/
theorem C9_render (changes : List (String × ChangeRecord))
    (hnd : (changes.map Prod.fst).Nodup)
    (hkeq : ∀ k ∈ changes.map Prod.fst, '=' ∉ k.toList)
    (hksp : ∀ k ∈ changes.map Prod.fst, ' ' ∉ k.toList)
    (hcm : ∀ kr ∈ changes, unhandledComment kr.2 = "") :
    RenderedDoc (buildBash changes) ∧ RenderedDoc (buildGnu changes) := by
  constructor
  · exact ⟨dump_lines_eq_blocks _, sorted_sortLines _, sorted_sortLines _, sorted_sortLines _,
      sorted_sortLines _, sorted_sortLines _,
      sorted_hash_map _ (bash_front_free changes hnd hkeq hcm)⟩
  · exact ⟨dump_lines_eq_blocks _, sorted_sortLines _, sorted_sortLines _, sorted_sortLines _,
      sorted_sortLines _, sorted_sortLines _,
      sorted_hash_map _ (gnu_front_free changes hnd hksp hcm)⟩

/-- C9, witness: a three-entry change set with one record in each of the
added, list-expanded and unhandled categories. -/
theorem C9_witness :
    (([("B", ChangeRecord.unhandled "v" ""), ("PATH", ChangeRecord.listExpanded ["/opt"] []),
        ("A", ChangeRecord.added "1")].map Prod.fst).Nodup) ∧
      (∀ k ∈ [("B", ChangeRecord.unhandled "v" ""),
          ("PATH", ChangeRecord.listExpanded ["/opt"] []),
          ("A", ChangeRecord.added "1")].map Prod.fst, '=' ∉ k.toList) ∧
      (∀ k ∈ [("B", ChangeRecord.unhandled "v" ""),
          ("PATH", ChangeRecord.listExpanded ["/opt"] []),
          ("A", ChangeRecord.added "1")].map Prod.fst, ' ' ∉ k.toList) ∧
      (∀ kr ∈ [("B", ChangeRecord.unhandled "v" ""),
          ("PATH", ChangeRecord.listExpanded ["/opt"] []),
          ("A", ChangeRecord.added "1")], unhandledComment kr.2 = "") ∧
      (RenderedDoc (buildBash [("B", ChangeRecord.unhandled "v" ""),
          ("PATH", ChangeRecord.listExpanded ["/opt"] []),
          ("A", ChangeRecord.added "1")]) ∧
        RenderedDoc (buildGnu [("B", ChangeRecord.unhandled "v" ""),
          ("PATH", ChangeRecord.listExpanded ["/opt"] []),
          ("A", ChangeRecord.added "1")])) :=
  ⟨by decide, by decide, by decide, by decide,
    C9_render _ (by decide) (by decide) (by decide) (by decide)⟩

end Envdiff
